import Mathlib

/-!
Shallow embedding of `src/crates/gglib-download/scripts/hf_xet_downloader.py`
(the downloader helper of the gglib repository).

Modelling conventions:
  * Machine time (`time.monotonic`, a float of seconds) is modelled as `ℚ`;
    the constant `MIN_PROGRESS_INTERVAL_S = 0.2` becomes `1/5 : ℚ`.
  * Python strings are Lean `String`s; `str.strip()` is `pyStrip`
    (ASCII whitespace suffices for the inputs at hand), `str.lstrip("/ ")`
    is `lstripSlashSpace`, `sep in s` is `pyIn`, `s.rsplit(sep, 1)` is
    `rsplit1` (split at the LAST occurrence, as Python does, including for
    overlapping occurrences), and `int(s)` is `pyInt` (optional surrounding
    whitespace, optional sign, a nonempty run of decimal digits - the
    fragment of the Python integer grammar these inputs exercise).
  * Each JSON line written by `emit` (source lines 49-60) is one value of
    the inductive type `Event`; the exact wire shapes are recorded on the
    constructors.
  * External collaborators (`hf_hub_download` together with the
    `os.replace` move in `download_file`, source lines 158-192) are an
    oracle `Nat → HfArgs → List (String × Int × Int) × Option String`:
    for the i-th call with the keyword arguments the script passes, the
    progress payloads its bar emitted and `none` on success or
    `some message` when the call raised.
-/

/-- One protocol line written by `emit` (source lines 49-60).  The wire
shapes are: `progress` = `{"status":"progress","file":f,"downloaded":d,"total":t}`;
`unavailable` = `{"status":"unavailable","reason":r}`;
`error` = `{"status":"error","message":m}`; `complete` = `{"status":"complete"}`;
`probeReport` models the call `emit("probe", status="ok", huggingface_hub=hub, hf_xet=xet)`
at source lines 239-244, whose wire form is
`{"status":"ok","huggingface_hub":hub,"hf_xet":xet}` because the keyword
payload `status="ok"` overwrites the positional status in the dict literal
`{"status": status, **payload}`. -/
inductive Event where
  | progress (file : String) (downloaded : Int) (total : Int)
  | unavailable (reason : String)
  | error (message : String)
  | probeReport (hub : String) (xet : String)
  | complete
deriving DecidableEq, Repr

/-- `FileSpec` dataclass (source lines 79-86): relative path and optional
size hint.  `display_name` is just `path`. -/
structure FileSpec where
  path : String
  size : Option Int
deriving DecidableEq, Repr

def FileSpec.display_name (s : FileSpec) : String := s.path

deriving instance DecidableEq for Except

/-- Python `s.strip()`: drop whitespace from both ends (ASCII whitespace
suffices for the inputs at hand). -/
def pyStrip (s : String) : String :=
  String.mk (((s.data.dropWhile (fun c => c.isWhitespace)).reverse.dropWhile
    (fun c => c.isWhitespace)).reverse)

/-- Indices `i` such that `sep` occurs in `s` starting at character
position `i` (ascending). -/
def occs (s sep : String) : List Nat :=
  (List.range (s.data.length + 1)).filter
    (fun i => (s.data.drop i).take sep.data.length == sep.data)

/-- Python `sep in s` for nonempty `sep`. -/
def pyIn (s sep : String) : Bool :=
  !(occs s sep).isEmpty

/-- Python `s.rsplit(sep, 1)` when `sep` occurs in `s`: split at the last
occurrence.  When `sep` does not occur the result is unused by callers. -/
def rsplit1 (s sep : String) : String × String :=
  match (occs s sep).getLast? with
  | some i => (String.mk (s.data.take i), String.mk (s.data.drop (i + sep.data.length)))
  | none => (s, "")

/-- Python `s.lstrip("/ ")`: drop leading slashes and spaces. -/
def lstripSlashSpace (s : String) : String :=
  String.mk (s.data.dropWhile (fun c => c == '/' || c == ' '))

/-- Value of a nonempty run of decimal digits. -/
def digitsToNat (ds : List Char) : Nat :=
  ds.foldl (fun a c => 10 * a + (c.toNat - 48)) 0

/-- A nonempty all-digit run parses; anything else does not. -/
def pyNat (ds : List Char) : Option Nat :=
  if ds ≠ [] ∧ ds.all (fun c => c.isDigit) then some (digitsToNat ds) else none

/-- Python `int(s)` on the fragment used here: optional surrounding
whitespace, optional single sign, then a nonempty run of decimal digits;
everything else raises `ValueError`, modelled as `none`. -/
def pyInt (s : String) : Option Int :=
  match (pyStrip s).data with
  | [] => none
  | c :: rest =>
    if c = '-' then (pyNat rest).map (fun v => -(v : Int))
    else if c = '+' then (pyNat rest).map (fun v => (v : Int))
    else (pyNat (c :: rest)).map (fun v => (v : Int))

/-- The delimiter scan of `parse_file_specs` (source lines 134-144): try
`"::"` then `"="`; at the first separator present, split at its last
occurrence and try to parse the size, leaving it unset on failure; with no
separator the whole entry is the path and there is no size hint. -/
def splitSpec (raw : String) : String × Option Int :=
  if pyIn raw "::" then
    let r := rsplit1 raw "::"
    (r.1, pyInt r.2)
  else if pyIn raw "=" then
    let r := rsplit1 raw "="
    (r.1, pyInt r.2)
  else (raw, none)

/-- The loop body of `parse_file_specs` (source lines 129-148): strip each
raw entry, skip blanks, split off the size hint, normalize the path by
stripping leading slashes and spaces, and raise `ValueError` on an entry
that normalizes to the empty path. -/
def parse_file_specs_loop : List String → Except String (List FileSpec)
  | [] => Except.ok []
  | rawOrig :: rest =>
    let raw := pyStrip rawOrig
    if raw = "" then parse_file_specs_loop rest
    else
      let ps := splitSpec raw
      let normalized_path := lstripSlashSpace ps.1
      if normalized_path = "" then
        Except.error ("Invalid file specification: \x27" ++ raw ++ "\x27")
      else
        match parse_file_specs_loop rest with
        | Except.error e => Except.error e
        | Except.ok specs => Except.ok (⟨normalized_path, ps.2⟩ :: specs)

/-- `parse_file_specs` (source lines 128-151): the loop above, then
`ValueError` when no spec survived the blank filter. -/
def parse_file_specs (raw_values : List String) : Except String (List FileSpec) :=
  match parse_file_specs_loop raw_values with
  | Except.error e => Except.error e
  | Except.ok [] => Except.error "At least one --file argument is required"
  | Except.ok specs => Except.ok specs

/-- Per-entry summary used to state order preservation: a blank entry is
dropped, a non-blank entry yields its normalized path and size hint (absent
size on entries the parse would reject). -/
def parseEntry (rawOrig : String) : Option FileSpec :=
  let raw := pyStrip rawOrig
  if raw = "" then none
  else
    let ps := splitSpec raw
    let normalized_path := lstripSlashSpace ps.1
    if normalized_path = "" then none else some ⟨normalized_path, ps.2⟩

/-- The self-documented minimum spacing between progress events,
`MIN_PROGRESS_INTERVAL_S = 0.2` (source line 40). -/
def MIN_PROGRESS_INTERVAL_S : ℚ := 1/5

/-- `record_progress_emit` (source lines 44-46): overwrite the module-level
`_LAST_PROGRESS_EMIT` with the current monotonic time.  The module-level
value is written here and read nowhere in the script. -/
def record_progress_emit (now : ℚ) (_g : ℚ) : ℚ := now

/-- Python `self.total or 0` followed by `int(...)` in `_emit` (source
line 122): `None` and `0` are falsy and yield `0`; any other total stands. -/
def pyOrZero (t : Option Int) : Int :=
  match t with
  | none => 0
  | some v => if v = 0 then 0 else v

/-- Python `value or None` (used for the auth token at source line 255):
the empty string is falsy and collapses to `None`. -/
def pyOrNone (t : Option String) : Option String :=
  match t with
  | some "" => none
  | t => t

/-- The state of one `JsonProgressBar` instance (source lines 90-125):
the label captured at construction, the running byte count `self.n`, the
best known `self.total`, the tqdm `disable` flag, and the per-instance
`self._last_emit` timestamp that governs throttling. -/
structure Bar where
  label : String
  n : Int
  total : Option Int
  disable : Bool
  lastEmit : ℚ
deriving DecidableEq, Repr

namespace JsonProgressBar

/-- `JsonProgressBar._emit` (source lines 114-125), threading the
module-level `_LAST_PROGRESS_EMIT` value `g`: unless forced, return
without output when less than the minimum interval has passed since this
instance last emitted; otherwise emit one `progress` event carrying the
label, `int(self.n)` and `int(self.total or 0)`, then set
`self._last_emit` and call `record_progress_emit`. -/
def _emit (bar : Bar) (g : ℚ) (force : Bool) (now : ℚ) : Bar × ℚ × List Event :=
  if force = false ∧ now - bar.lastEmit < MIN_PROGRESS_INTERVAL_S then
    (bar, g, [])
  else
    ({ bar with lastEmit := now }, record_progress_emit now g,
      [Event.progress bar.label bar.n (pyOrZero bar.total)])

/-- `JsonProgressBar.__init__` (source lines 93-102): after tqdm
initialization (`self.n = 0`, `self.total` and `desc` from the keyword
arguments, the unknown `name` keyword dropped), capture the label, set
`self._last_emit = 0.0`, and emit once with `force=True`. -/
def init (desc : String) (total : Option Int) (disable : Bool) (g : ℚ) (now : ℚ) :
    Bar × ℚ × List Event :=
  _emit { label := desc, n := 0, total := total, disable := disable, lastEmit := 0 } g true now

/-- Vanilla `tqdm.update(n)` as the subclass relies on it: a no-op when
the bar is disabled, otherwise `self.n += n`. -/
def tqdm_update (bar : Bar) (k : Int) : Bar :=
  if bar.disable then bar else { bar with n := bar.n + k }

/-- `JsonProgressBar.update` (source lines 104-112): when the bar is
disabled, add to `self.n` directly (vanilla tqdm suspends its accounting
in that mode); otherwise delegate to `tqdm.update`; then `_emit()`
without force. -/
def update (bar : Bar) (g : ℚ) (k : Int) (now : ℚ) : Bar × ℚ × List Event :=
  let bar2 := if bar.disable then { bar with n := bar.n + k } else tqdm_update bar k
  _emit bar2 g false now

end JsonProgressBar

/-- Run a sequence of `update` calls, each given as an increment and the
monotonic time at which it happens; collect the emitted events in order. -/
def runUpdates (bar : Bar) (g : ℚ) : List (Int × ℚ) → Bar × ℚ × List Event
  | [] => (bar, g, [])
  | c :: rest =>
    let s1 := JsonProgressBar.update bar g c.1 c.2
    let s2 := runUpdates s1.1 s1.2.1 rest
    (s2.1, s2.2.1, s1.2.2 ++ s2.2.2)

/-- An interleaving step: an `update` call on emitter A or on emitter B. -/
inductive Op where
  | opA (k : Int) (now : ℚ)
  | opB (k : Int) (now : ℚ)
deriving DecidableEq, Repr

/-- Two live emitter instances sharing the process: both write the
module-level `_LAST_PROGRESS_EMIT` value `g` through
`record_progress_emit`, but each throttles on its own `_last_emit`. -/
structure TwoSys where
  barA : Bar
  barB : Bar
  g : ℚ
deriving DecidableEq, Repr

/-- One interleaved call; events are tagged with `true` for emitter A. -/
def stepSys (s : TwoSys) : Op → TwoSys × List (Bool × Event)
  | Op.opA k now =>
    let r := JsonProgressBar.update s.barA s.g k now
    ({ s with barA := r.1, g := r.2.1 }, r.2.2.map (fun e => (true, e)))
  | Op.opB k now =>
    let r := JsonProgressBar.update s.barB s.g k now
    ({ s with barB := r.1, g := r.2.1 }, r.2.2.map (fun e => (false, e)))

/-- Run an interleaved call sequence on the two emitters. -/
def runSys (s : TwoSys) : List Op → TwoSys × List (Bool × Event)
  | [] => (s, [])
  | op :: rest =>
    let r1 := stepSys s op
    let r2 := runSys r1.1 rest
    (r2.1, r1.2 ++ r2.2)

/-- The calls addressed to emitter B, in order. -/
def projB : List Op → List (Int × ℚ)
  | [] => []
  | Op.opA _ _ :: rest => projB rest
  | Op.opB k now :: rest => (k, now) :: projB rest

/-- The events of emitter B in an interleaved event stream. -/
def bEvents (l : List (Bool × Event)) : List Event :=
  l.filterMap (fun p => if p.1 then none else some p.2)

/-- The `downloaded` fields of the progress events of a stream. -/
def evDownloads (l : List Event) : List Int :=
  l.filterMap (fun e =>
    match e with
    | Event.progress _ d _ => some d
    | _ => none)

/-- The parsed command-line arguments (the `argparse.Namespace` built by
`build_arg_parser`, source lines 195-225): the model starts after argument
parsing succeeded. -/
structure Config where
  repo_id : String
  revision : String
  repo_type : String
  dest : String
  cache_dir : Option String
  token : Option String
  force : Bool
  local_only : Bool
  probe : Bool
deriving DecidableEq, Repr

/-- The keyword arguments `download_file` passes to `hf_hub_download`
(source lines 171-183).  `tqdm_class=JsonProgressBar` is the constant last
argument and is left implicit.  Path objects (`dest_root`, `cache_dir`)
are kept as the strings they were built from. -/
structure HfArgs where
  repo_id : String
  filename : String
  revision : String
  repo_type : String
  token : Option String
  cache_dir : Option String
  local_dir : String
  force_download : Bool
  local_files_only : Bool
  resume_download : Bool
deriving DecidableEq, Repr

/-- The arguments the script passes for one file: everything comes from
the session configuration except `filename`, which is the normalized spec
path.  The size hint of the spec is not among them. -/
def mkHfArgs (cfg : Config) (spec : FileSpec) : HfArgs :=
  { repo_id := cfg.repo_id
    filename := spec.path
    revision := cfg.revision
    repo_type := cfg.repo_type
    token := pyOrNone cfg.token
    cache_dir := cfg.cache_dir
    local_dir := cfg.dest
    force_download := cfg.force
    local_files_only := cfg.local_only
    resume_download := true }

/-- The external transfer operation: for the i-th `download_file` call
with the given keyword arguments, the progress payloads
`(file, downloaded, total)` its bar emitted, and `none` on success or
`some message` when `hf_hub_download` or the subsequent `os.replace`
raised (main catches any exception at source lines 271-273). -/
def Oracle := Nat → HfArgs → List (String × Int × Int) × Option String

/-- View a progress payload as the protocol event `_emit` writes. -/
def progEv (p : String × Int × Int) : Event :=
  Event.progress p.1 p.2.1 p.2.2

/-- The per-file loop of `main` (source lines 262-276): call
`download_file` for each spec in order; when a call raises, emit one
`error` event naming the file and the message and return 65 at once;
after the whole plan succeeds emit `complete` and return 0. -/
def runFiles (o : Oracle) (cfg : Config) : List FileSpec → Nat → Int × List Event
  | [], _ => (0, [Event.complete])
  | spec :: rest, i =>
    let call := o i (mkHfArgs cfg spec)
    match call.2 with
    | some exc =>
      (65, call.1.map progEv ++
        [Event.error ("Failed to download " ++ spec.display_name ++ ": " ++ exc)])
    | none =>
      let r := runFiles o cfg rest (i + 1)
      (r.1, call.1.map progEv ++ r.2)

/-- The progress events of a run in plan order (used to state what a
successful prefix of the session emits). -/
def orderedProgress (o : Oracle) (cfg : Config) : List FileSpec → Nat → List Event
  | [], _ => []
  | spec :: rest, i =>
    (o i (mkHfArgs cfg spec)).1.map progEv ++ orderedProgress o cfg rest (i + 1)

/-- The whole process environment `main` runs in: whether the three
imports succeed, the version lookups, the parsed arguments, the raw
`--file` values, and the external transfer oracle. -/
structure Env where
  hfHubOk : Bool
  tqdmOk : Bool
  hfXetImport : Except String Unit
  hfXetVersionMeta : Option String
  hubVersion : String
  cfg : Config
  rawFiles : List String
  oracle : Oracle

/-- `require_hf_xet` (source lines 63-76): when the `hf_xet` import
raises, emit `unavailable` with the reason and exit 90; otherwise return
the package version, or `"unknown"` when the metadata lookup raises
`PackageNotFoundError`. -/
def require_hf_xet (env : Env) : Except (Int × List Event) String :=
  match env.hfXetImport with
  | Except.error exc =>
    Except.error (90, [Event.unavailable ("hf_xet not available: " ++ exc)])
  | Except.ok _ =>
    Except.ok (env.hfXetVersionMeta.getD "unknown")

/-- `main` (source lines 228-276), after argument parsing and the
telemetry `os.environ.setdefault` calls (which write no protocol event):
check `hf_xet`, then handle `--probe`, then parse the file specs (exit 64
with an `error` event on `ValueError`), then run the per-file loop. -/
def mainFn (env : Env) : Int × List Event :=
  match require_hf_xet env with
  | Except.error r => r
  | Except.ok xetVersion =>
    if env.cfg.probe then
      (0, [Event.probeReport env.hubVersion xetVersion])
    else
      match parse_file_specs env.rawFiles with
      | Except.error msg => (64, [Event.error msg])
      | Except.ok specs => runFiles env.oracle env.cfg specs 0

/-- The whole process (source lines 20-32 and 279-280): the module-level
`huggingface_hub` import failure exits 97 and the `tqdm` import failure
exits 98, both with a stderr diagnostic only (no protocol event); then
`sys.exit(main())`. -/
def script (env : Env) : Int × List Event :=
  if env.hfHubOk = false then (97, [])
  else if env.tqdmOk = false then (98, [])
  else mainFn env

/-- The imports all resolve: the environment in which `main` runs past its
dependency checks. -/
def depsOk (env : Env) : Prop :=
  env.hfHubOk = true ∧ env.tqdmOk = true ∧ env.hfXetImport = Except.ok ()

/-- Event classifier: is this an `error` line. -/
def isErrorEv : Event → Bool
  | Event.error _ => true
  | _ => false

/-- Event classifier: is this the `complete` line. -/
def isCompleteEv : Event → Bool
  | Event.complete => true
  | _ => false

/-- A raw `--file` entry on which `parse_file_specs` raises: non-blank but
normalizing to an empty path. -/
def badEntry (rawOrig : String) : Prop :=
  pyStrip rawOrig ≠ "" ∧ lstripSlashSpace (splitSpec (pyStrip rawOrig)).1 = ""

instance (rawOrig : String) : Decidable (badEntry rawOrig) := by
  unfold badEntry
  infer_instance

/-- Concrete session configuration used by the witnesses. -/
def cfg0 : Config :=
  { repo_id := "owner/repo", revision := "main", repo_type := "model",
    dest := "/models", cache_dir := none, token := none,
    force := false, local_only := false, probe := false }

/-- `cfg0` with the probe flag set. -/
def cfgProbe : Config := { cfg0 with probe := true }

/-- A transfer oracle whose calls all succeed, emitting one progress
payload each. -/
def oracleOk : Oracle := fun _ a => ([(a.filename, 10, 10)], none)

/-- A transfer oracle whose first call succeeds and whose later calls
raise. -/
def oracleFailSecond : Oracle :=
  fun i a => if i = 0 then ([(a.filename, 1, 2)], none) else ([], some "boom")

/-- Concrete healthy environment used by the witnesses. -/
def envOk : Env :=
  { hfHubOk := true, tqdmOk := true, hfXetImport := Except.ok (),
    hfXetVersionMeta := some "1.2.3", hubVersion := "0.30.0",
    cfg := cfg0, rawFiles := ["a.txt", "b/c.bin::42"], oracle := oracleOk }

/-- `envOk` with the transfer of the second file failing. -/
def envFailSecond : Env := { envOk with oracle := oracleFailSecond }

/-- `envOk` in probe mode. -/
def envProbe : Env := { envOk with cfg := cfgProbe }

/-- `envOk` with a `--file` list whose single entry normalizes empty. -/
def envBadSpec : Env := { envOk with rawFiles := ["/"] }

/-- `envOk` with a file spec carrying the size hint 1024. -/
def envHintA : Env := { envOk with rawFiles := ["f.bin::1024"] }

/-- `envOk` with the same path but the size hint 7. -/
def envHintB : Env := { envOk with rawFiles := ["f.bin::7"] }

/-- Canonical form of one `update` call: both the disabled and the enabled
branch add `k` to the running count, and the call emits exactly when at
least the minimum interval has passed since this instance last emitted. -/
theorem JsonProgressBar.update_eq (bar : Bar) (g : ℚ) (k : Int) (now : ℚ) :
    JsonProgressBar.update bar g k now =
      if MIN_PROGRESS_INTERVAL_S ≤ now - bar.lastEmit then
        ({ bar with n := bar.n + k, lastEmit := now }, now,
          [Event.progress bar.label (bar.n + k) (pyOrZero bar.total)])
      else ({ bar with n := bar.n + k }, g, []) := by
  have hbar2 : (if bar.disable then { bar with n := bar.n + k }
      else JsonProgressBar.tqdm_update bar k) = { bar with n := bar.n + k } := by
    unfold JsonProgressBar.tqdm_update
    cases bar.disable <;> simp
  simp only [JsonProgressBar.update]
  rw [hbar2]
  simp only [JsonProgressBar._emit, record_progress_emit]
  by_cases h : now - bar.lastEmit < MIN_PROGRESS_INTERVAL_S
  · simp [h, not_le.mpr h]
  · simp [h, not_lt.mp h]

/-- The result bar of an `update` does not depend on the module-level
timestamp. -/
theorem JsonProgressBar.update_bar_g_indep (bar : Bar) (g g' : ℚ) (k : Int) (now : ℚ) :
    (JsonProgressBar.update bar g k now).1 = (JsonProgressBar.update bar g' k now).1 := by
  rw [JsonProgressBar.update_eq, JsonProgressBar.update_eq]
  by_cases h : MIN_PROGRESS_INTERVAL_S ≤ now - bar.lastEmit <;> simp [h]

/-- The events of an `update` do not depend on the module-level
timestamp. -/
theorem JsonProgressBar.update_events_g_indep (bar : Bar) (g g' : ℚ) (k : Int) (now : ℚ) :
    (JsonProgressBar.update bar g k now).2.2 = (JsonProgressBar.update bar g' k now).2.2 := by
  rw [JsonProgressBar.update_eq, JsonProgressBar.update_eq]
  by_cases h : MIN_PROGRESS_INTERVAL_S ≤ now - bar.lastEmit <;> simp [h]

/-- A sequence of `update` calls all strictly inside the minimum interval
after the last emission produces no event, leaves the throttle timestamp
in place, and leaves the module-level timestamp in place. -/
theorem runUpdates_quiet : ∀ (calls : List (Int × ℚ)) (bar : Bar) (g : ℚ),
    (∀ c ∈ calls, c.2 - bar.lastEmit < MIN_PROGRESS_INTERVAL_S) →
    (runUpdates bar g calls).2.2 = [] ∧
      (runUpdates bar g calls).1.lastEmit = bar.lastEmit ∧
      (runUpdates bar g calls).2.1 = g := by
  intro calls
  induction calls with
  | nil => intro bar g _; simp [runUpdates]
  | cons c rest ih =>
    intro bar g h
    have hc : c.2 - bar.lastEmit < MIN_PROGRESS_INTERVAL_S := h c (by simp)
    simp only [runUpdates]
    rw [JsonProgressBar.update_eq, if_neg (not_le.mpr hc)]
    have hrest := ih { bar with n := bar.n + c.1 } g
      (by intro d hd; exact h d (by simp [hd]))
    simp only at hrest
    simp [hrest.1, hrest.2.1, hrest.2.2]

/-- The running count after a sequence of `update` calls is the initial
count plus the sum of the increments. -/
theorem runUpdates_n : ∀ (calls : List (Int × ℚ)) (bar : Bar) (g : ℚ),
    (runUpdates bar g calls).1.n = bar.n + (calls.map Prod.fst).sum := by
  intro calls
  induction calls with
  | nil => intro bar g; simp [runUpdates]
  | cons c rest ih =>
    intro bar g
    simp only [runUpdates]
    rw [JsonProgressBar.update_eq]
    by_cases h : MIN_PROGRESS_INTERVAL_S ≤ c.2 - bar.lastEmit
    · rw [if_pos h]
      simp [ih]
      ring
    · rw [if_neg h]
      simp [ih]
      ring

/-- With nonnegative increments, the `downloaded` values of the emitted
progress events are sorted and bounded below by the initial count. -/
theorem runUpdates_downloads_sorted : ∀ (calls : List (Int × ℚ)) (bar : Bar) (g : ℚ),
    (∀ c ∈ calls, 0 ≤ c.1) →
    List.Sorted (· ≤ ·) (evDownloads (runUpdates bar g calls).2.2) ∧
      (∀ d ∈ evDownloads (runUpdates bar g calls).2.2, bar.n ≤ d) := by
  intro calls
  induction calls with
  | nil => intro bar g _; simp [runUpdates, evDownloads]
  | cons c rest ih =>
    intro bar g h
    have hc : 0 ≤ c.1 := h c (by simp)
    have hrest : ∀ d ∈ rest, 0 ≤ d.1 := by intro d hd; exact h d (by simp [hd])
    simp only [runUpdates]
    rw [JsonProgressBar.update_eq]
    by_cases hemit : MIN_PROGRESS_INTERVAL_S ≤ c.2 - bar.lastEmit
    · rw [if_pos hemit]
      have hi := ih { bar with n := bar.n + c.1, lastEmit := c.2 } c.2 hrest
      simp only at hi
      simp only [evDownloads, List.filterMap_append] at hi ⊢
      simp only [List.filterMap_cons, List.filterMap_nil]
      constructor
      · refine List.sorted_cons.mpr ⟨?_, hi.1⟩
        intro b hb
        exact hi.2 b hb
      · intro d hd
        rcases List.mem_cons.mp hd with h1 | h2
        · omega
        · have := hi.2 d h2
          omega
    · rw [if_neg hemit]
      have hi := ih { bar with n := bar.n + c.1 } g hrest
      simp only at hi
      simp only [evDownloads, List.filterMap_append, List.filterMap_nil, List.nil_append]
      refine ⟨hi.1, ?_⟩
      intro d hd
      have := hi.2 d hd
      omega

/-- Unfolding of the per-file loop at a call that raises. -/
theorem runFiles_cons_fail {o : Oracle} {cfg : Config} {spec : FileSpec}
    {rest : List FileSpec} {i : Nat} {exc : String}
    (h : (o i (mkHfArgs cfg spec)).2 = some exc) :
    runFiles o cfg (spec :: rest) i =
      (65, (o i (mkHfArgs cfg spec)).1.map progEv ++
        [Event.error ("Failed to download " ++ spec.display_name ++ ": " ++ exc)]) := by
  simp only [runFiles]
  rw [h]

/-- Unfolding of the per-file loop at a call that succeeds. -/
theorem runFiles_cons_ok {o : Oracle} {cfg : Config} {spec : FileSpec}
    {rest : List FileSpec} {i : Nat}
    (h : (o i (mkHfArgs cfg spec)).2 = none) :
    runFiles o cfg (spec :: rest) i =
      ((runFiles o cfg rest (i + 1)).1,
        (o i (mkHfArgs cfg spec)).1.map progEv ++ (runFiles o cfg rest (i + 1)).2) := by
  simp only [runFiles]
  rw [h]

/-- When every oracle call succeeds, the loop returns 0 and emits the
progress events of the files in plan order followed by `complete`. -/
theorem runFiles_allOk {o : Oracle} {cfg : Config}
    (hok : ∀ j a, (o j a).2 = none) :
    ∀ (specs : List FileSpec) (i : Nat),
      runFiles o cfg specs i = (0, orderedProgress o cfg specs i ++ [Event.complete]) := by
  intro specs
  induction specs with
  | nil => intro i; simp [runFiles, orderedProgress]
  | cons spec rest ih =>
    intro i
    rw [runFiles_cons_ok (hok i (mkHfArgs cfg spec)), ih (i + 1)]
    simp [orderedProgress]

/-- Every event of `orderedProgress` is a progress event. -/
theorem orderedProgress_mem {o : Oracle} {cfg : Config} :
    ∀ (specs : List FileSpec) (i : Nat) (e : Event),
      e ∈ orderedProgress o cfg specs i → ∃ f d t, e = Event.progress f d t := by
  intro specs
  induction specs with
  | nil => intro i e he; simp [orderedProgress] at he
  | cons spec rest ih =>
    intro i e he
    simp only [orderedProgress, List.mem_append] at he
    rcases he with h1 | h2
    · rcases List.mem_map.mp h1 with ⟨p, _, hp⟩
      exact ⟨p.1, p.2.1, p.2.2, hp.symm⟩
    · exact ih (i + 1) e h2

/-- `orderedProgress` only consults the oracle at the indices of the
given specs. -/
theorem orderedProgress_congr {o o' : Oracle} {cfg : Config} :
    ∀ (specs : List FileSpec) (i : Nat),
      (∀ j, i ≤ j → j < i + specs.length → o j = o' j) →
      orderedProgress o cfg specs i = orderedProgress o' cfg specs i := by
  intro specs
  induction specs with
  | nil => intro i _; simp [orderedProgress]
  | cons spec rest ih =>
    intro i h
    have h' : ∀ j, i + 1 ≤ j → j < i + 1 + rest.length → o j = o' j := by
      intro j h1 h2
      exact h j (by omega) (by rw [List.length_cons]; omega)
    simp only [orderedProgress]
    rw [h i (le_refl i) (by rw [List.length_cons]; omega), ih (i + 1) h']

/-- The loop exits 0, or exits 65 with an error event on the stream. -/
theorem runFiles_code_cases (o : Oracle) (cfg : Config) :
    ∀ (specs : List FileSpec) (i : Nat),
      (runFiles o cfg specs i).1 = 0 ∨
        ((runFiles o cfg specs i).1 = 65 ∧
          ∃ m, Event.error m ∈ (runFiles o cfg specs i).2) := by
  intro specs
  induction specs with
  | nil => intro i; left; simp [runFiles]
  | cons spec rest ih =>
    intro i
    rcases hc : (o i (mkHfArgs cfg spec)).2 with _ | exc
    · rw [runFiles_cons_ok hc]
      rcases ih (i + 1) with h0 | ⟨h65, m, hm⟩
      · left; exact h0
      · right
        exact ⟨h65, m, by simp [hm]⟩
    · rw [runFiles_cons_fail hc]
      right
      refine ⟨rfl, "Failed to download " ++ spec.display_name ++ ": " ++ exc, ?_⟩
      simp

/-- When the calls before position `k` succeed and the call at position
`k` raises, the loop stops there: it returns 65 and the stream is the
progress of the files before `k`, the progress the failing call produced,
and one error event naming that file and the exception. -/
theorem runFiles_firstFail {o : Oracle} {cfg : Config} {msg : String} :
    ∀ (specs : List FileSpec) (i k : Nat) (hk : k < specs.length),
      (∀ j a, j < i + k → (o j a).2 = none) →
      (o (i + k) (mkHfArgs cfg (specs.get ⟨k, hk⟩))).2 = some msg →
      runFiles o cfg specs i =
        (65, orderedProgress o cfg (specs.take k) i ++
          (o (i + k) (mkHfArgs cfg (specs.get ⟨k, hk⟩))).1.map progEv ++
          [Event.error ("Failed to download " ++ (specs.get ⟨k, hk⟩).display_name
            ++ ": " ++ msg)]) := by
  intro specs
  induction specs with
  | nil => intro i k hk; simp at hk
  | cons spec rest ih =>
    intro i k hk hpre hfail
    cases k with
    | zero =>
      simp only [List.get] at hfail ⊢
      have h0 : i + 0 = i := by omega
      rw [h0] at hfail
      rw [runFiles_cons_fail hfail]
      simp [orderedProgress, h0]
    | succ k' =>
      have hk' : k' < rest.length := by simpa using hk
      have hhead : (o i (mkHfArgs cfg spec)).2 = none :=
        hpre i (mkHfArgs cfg spec) (by omega)
      rw [runFiles_cons_ok hhead]
      have harith : i + 1 + k' = i + (k' + 1) := by omega
      have hrec := ih (i + 1) k' hk'
        (by intro j a hj; exact hpre j a (by omega))
        (by rw [harith]; simpa using hfail)
      rw [hrec]
      simp only [List.take, orderedProgress, List.get]
      rw [harith]
      simp

/-- The loop raises exactly when some entry is non-blank but normalizes
to an empty path. -/
theorem parse_loop_isOk_false_iff : ∀ (raws : List String),
    (parse_file_specs_loop raws).isOk = false ↔ ∃ r ∈ raws, badEntry r := by
  intro raws
  induction raws with
  | nil => simp [parse_file_specs_loop, Except.isOk, Except.toBool]
  | cons r rest ih =>
    by_cases hb : pyStrip r = ""
    · have hnr : ¬ badEntry r := by intro h; exact h.1 hb
      simp only [parse_file_specs_loop]
      rw [if_pos hb, ih]
      constructor
      · rintro ⟨x, hx, hbad⟩
        exact ⟨x, List.mem_cons_of_mem r hx, hbad⟩
      · rintro ⟨x, hx, hbad⟩
        rcases List.mem_cons.mp hx with rfl | hx'
        · exact absurd hbad hnr
        · exact ⟨x, hx', hbad⟩
    · by_cases hn : lstripSlashSpace (splitSpec (pyStrip r)).1 = ""
      · have hbad : badEntry r := ⟨hb, hn⟩
        simp only [parse_file_specs_loop]
        rw [if_neg hb, if_pos hn]
        simp only [Except.isOk, Except.toBool, true_iff]
        exact ⟨r, by simp, hbad⟩
      · have hnr : ¬ badEntry r := by intro h; exact hn h.2
        simp only [parse_file_specs_loop]
        rw [if_neg hb, if_neg hn]
        have hmatch : ∀ x : Except String (List FileSpec),
            (match x with
              | Except.error e => Except.error e
              | Except.ok specs => Except.ok
                  ((⟨lstripSlashSpace (splitSpec (pyStrip r)).1,
                    (splitSpec (pyStrip r)).2⟩ : FileSpec) :: specs)).isOk = x.isOk := by
          intro x
          rcases x with e | s <;> simp [Except.isOk, Except.toBool]
        rw [hmatch, ih]
        constructor
        · rintro ⟨x, hx, hbad⟩
          exact ⟨x, List.mem_cons_of_mem r hx, hbad⟩
        · rintro ⟨x, hx, hbad⟩
          rcases List.mem_cons.mp hx with rfl | hx'
          · exact absurd hbad hnr
          · exact ⟨x, hx', hbad⟩

/-- The loop produces no spec exactly when every entry is blank. -/
theorem parse_loop_ok_nil_iff : ∀ (raws : List String),
    parse_file_specs_loop raws = Except.ok [] ↔ ∀ r ∈ raws, pyStrip r = "" := by
  intro raws
  induction raws with
  | nil => simp [parse_file_specs_loop]
  | cons r rest ih =>
    by_cases hb : pyStrip r = ""
    · simp only [parse_file_specs_loop]
      rw [if_pos hb, ih]
      constructor
      · intro h x hx
        rcases List.mem_cons.mp hx with rfl | hx'
        · exact hb
        · exact h x hx'
      · intro h x hx
        exact h x (List.mem_cons_of_mem r hx)
    · by_cases hn : lstripSlashSpace (splitSpec (pyStrip r)).1 = ""
      · simp only [parse_file_specs_loop]
        rw [if_neg hb, if_pos hn]
        constructor
        · intro h; cases h
        · intro h; exact absurd (h r (by simp)) hb
      · simp only [parse_file_specs_loop]
        rw [if_neg hb, if_neg hn]
        constructor
        · intro h
          rcases hrest : parse_file_specs_loop rest with e | s <;> rw [hrest] at h <;>
            simp at h
        · intro h; exact absurd (h r (by simp)) hb

/-- When the loop succeeds, its output is the per-entry summary of the
input, in input order: blank entries dropped, each other entry parsed
independently of the rest. -/
theorem parse_loop_ok_filterMap : ∀ (raws : List String) (specs : List FileSpec),
    parse_file_specs_loop raws = Except.ok specs → specs = raws.filterMap parseEntry := by
  intro raws
  induction raws with
  | nil => intro specs h; simp [parse_file_specs_loop] at h; simp [← h]
  | cons r rest ih =>
    intro specs h
    by_cases hb : pyStrip r = ""
    · simp only [parse_file_specs_loop] at h
      rw [if_pos hb] at h
      have hr : parseEntry r = none := by simp [parseEntry, hb]
      simp [List.filterMap_cons, hr]
      exact ih specs h
    · by_cases hn : lstripSlashSpace (splitSpec (pyStrip r)).1 = ""
      · simp only [parse_file_specs_loop] at h
        rw [if_neg hb, if_pos hn] at h
        cases h
      · simp only [parse_file_specs_loop] at h
        rw [if_neg hb, if_neg hn] at h
        rcases hrest : parse_file_specs_loop rest with e | s <;> rw [hrest] at h
        · cases h
        · have hspecs : specs = (⟨lstripSlashSpace (splitSpec (pyStrip r)).1,
              (splitSpec (pyStrip r)).2⟩ : FileSpec) :: s := by
            cases h; rfl
          have hr : parseEntry r = some ⟨lstripSlashSpace (splitSpec (pyStrip r)).1,
              (splitSpec (pyStrip r)).2⟩ := by
            simp [parseEntry, hb, hn]
          rw [hspecs, List.filterMap_cons, hr, ih s hrest]

/-- A successful parse is the per-entry summary of the input in input
order. -/
theorem parse_file_specs_ok_filterMap {raws : List String} {specs : List FileSpec}
    (h : parse_file_specs raws = Except.ok specs) :
    specs = raws.filterMap parseEntry := by
  unfold parse_file_specs at h
  rcases hl : parse_file_specs_loop raws with e | s <;> rw [hl] at h
  · cases h
  · rcases s with _ | ⟨sp, srest⟩
    · cases h
    · cases h
      exact parse_loop_ok_filterMap raws (sp :: srest) hl

/-- The parse fails exactly when some entry is non-blank but normalizes
to an empty path, or every entry is blank (in particular when the list is
empty). -/
theorem parse_file_specs_isOk_false_iff (raws : List String) :
    (parse_file_specs raws).isOk = false ↔
      (∃ r ∈ raws, badEntry r) ∨ ∀ r ∈ raws, pyStrip r = "" := by
  unfold parse_file_specs
  rcases h : parse_file_specs_loop raws with e | s
  · have hbad : ∃ r ∈ raws, badEntry r :=
      (parse_loop_isOk_false_iff raws).mp (by rw [h]; rfl)
    simp [Except.isOk, Except.toBool, hbad]
  · rcases s with _ | ⟨sp, srest⟩
    · have hall : ∀ r ∈ raws, pyStrip r = "" := (parse_loop_ok_nil_iff raws).mp h
      simp only [Except.isOk, Except.toBool, true_iff]
      exact Or.inr hall
    · simp only [Except.isOk, Except.toBool]
      constructor
      · intro hfalse; cases hfalse
      · rintro (hbad | hall)
        · have := (parse_loop_isOk_false_iff raws).mpr hbad
          rw [h] at this
          cases this
        · have := (parse_loop_ok_nil_iff raws).mpr hall
          rw [h] at this
          cases this

/-- With all imports resolved and the probe flag clear, the process is
the parse followed by the per-file loop. -/
theorem script_run (env : Env) (h : depsOk env) (hp : env.cfg.probe = false) :
    script env =
      (match parse_file_specs env.rawFiles with
        | Except.error msg => (64, [Event.error msg])
        | Except.ok specs => runFiles env.oracle env.cfg specs 0) := by
  obtain ⟨h1, h2, h3⟩ := h
  simp [script, h1, h2, mainFn, require_hf_xet, h3, hp]

/-- With all imports resolved and the probe flag set, the process emits
the readiness event and exits 0. -/
theorem script_probe (env : Env) (h : depsOk env) (hp : env.cfg.probe = true) :
    script env = (0, [Event.probeReport env.hubVersion
      (env.hfXetVersionMeta.getD "unknown")]) := by
  obtain ⟨h1, h2, h3⟩ := h
  simp [script, h1, h2, mainFn, require_hf_xet, h3, hp]

/-- Canonical form of construction: the forced emission always happens,
the throttle timestamp is set to construction time. -/
theorem JsonProgressBar.init_eq (desc : String) (total : Option Int)
    (disable : Bool) (g now : ℚ) :
    JsonProgressBar.init desc total disable g now =
      ({ label := desc, n := 0, total := total, disable := disable, lastEmit := now },
        now, [Event.progress desc 0 (pyOrZero total)]) := by
  simp [JsonProgressBar.init, JsonProgressBar._emit, record_progress_emit]

/-- Tagged events of emitter A vanish under the B projection. -/
theorem bEvents_mapA (l : List Event) : bEvents (l.map (fun e => (true, e))) = [] := by
  induction l with
  | nil => rfl
  | cons e rest ih => simp [bEvents, List.filterMap_cons, ih]

/-- Tagged events of emitter B survive the B projection unchanged. -/
theorem bEvents_mapB (l : List Event) : bEvents (l.map (fun e => (false, e))) = l := by
  induction l with
  | nil => rfl
  | cons e rest ih => simpa [bEvents, List.filterMap_cons] using ih

/-- The B projection distributes over concatenation. -/
theorem bEvents_append (a b : List (Bool × Event)) :
    bEvents (a ++ b) = bEvents a ++ bEvents b := by
  simp [bEvents, List.filterMap_append]

/-- Noninterference of the two emitters: in any interleaved run, the
events of emitter B and its final state are exactly those of B run alone
with the same calls, whatever emitter A does and whatever the module-level
timestamp holds initially. -/
theorem runSys_b_indep : ∀ (ops : List Op) (barA barB : Bar) (g g' : ℚ),
    bEvents (runSys ⟨barA, barB, g⟩ ops).2 = (runUpdates barB g' (projB ops)).2.2 ∧
    (runSys ⟨barA, barB, g⟩ ops).1.barB = (runUpdates barB g' (projB ops)).1 := by
  intro ops
  induction ops with
  | nil => intro barA barB g g'; simp [runSys, runUpdates, bEvents, projB]
  | cons op rest ih =>
    intro barA barB g g'
    cases op with
    | opA k now =>
      have h := ih (JsonProgressBar.update barA g k now).1 barB
        (JsonProgressBar.update barA g k now).2.1 g'
      simp only [runSys, stepSys, projB]
      rw [bEvents_append, bEvents_mapA, List.nil_append]
      exact h
    | opB k now =>
      have hbar := JsonProgressBar.update_bar_g_indep barB g g' k now
      have hev := JsonProgressBar.update_events_g_indep barB g g' k now
      have h := ih barA (JsonProgressBar.update barB g k now).1
        (JsonProgressBar.update barB g k now).2.1
        (JsonProgressBar.update barB g' k now).2.1
      simp only [runSys, stepSys, projB, runUpdates]
      rw [bEvents_append, bEvents_mapB]
      constructor
      · rw [hev, h.1, hbar]
      · rw [h.2, hbar]

/-- Claim C2: for every emitter instance and every non-forced `advance`
call, a progress event is emitted if and only if at least the minimum
interval of 200 ms has elapsed since that emitter's previous emission
(the `lastEmit` field, set at the construction-time emission and updated
exactly at each emission); consequently a sequence of non-forced calls
all within 200 ms of an emission emits nothing. -/
theorem C2_throttle_iff (bar : Bar) (g : ℚ) (k : Int) (now : ℚ) :
    ((JsonProgressBar.update bar g k now).2.2 ≠ [] ↔
      MIN_PROGRESS_INTERVAL_S ≤ now - bar.lastEmit) ∧
    ((JsonProgressBar.update bar g k now).2.2 = [] →
      (JsonProgressBar.update bar g k now).1.lastEmit = bar.lastEmit) ∧
    ((JsonProgressBar.update bar g k now).2.2 ≠ [] →
      (JsonProgressBar.update bar g k now).1.lastEmit = now) ∧
    (∀ (desc : String) (total : Option Int) (dis : Bool) (t0 : ℚ)
        (calls : List (Int × ℚ)),
      (∀ c ∈ calls, c.2 - t0 < MIN_PROGRESS_INTERVAL_S) →
      (runUpdates (JsonProgressBar.init desc total dis g t0).1
        (JsonProgressBar.init desc total dis g t0).2.1 calls).2.2 = []) := by
  refine ⟨?_, ?_, ?_, ?_⟩
  · rw [JsonProgressBar.update_eq]
    by_cases h : MIN_PROGRESS_INTERVAL_S ≤ now - bar.lastEmit <;> simp [h]
  · rw [JsonProgressBar.update_eq]
    by_cases h : MIN_PROGRESS_INTERVAL_S ≤ now - bar.lastEmit <;> simp [h]
  · rw [JsonProgressBar.update_eq]
    by_cases h : MIN_PROGRESS_INTERVAL_S ≤ now - bar.lastEmit <;> simp [h]
  · intro desc total dis t0 calls hcalls
    rw [JsonProgressBar.init_eq]
    exact (runUpdates_quiet calls _ _ (by intro c hc; exact hcalls c hc)).1

/-- Witness for C2: after the construction emission at time 0, two
non-forced calls at 100 ms and 150 ms emit nothing. -/
theorem C2_witness :
    (runUpdates (JsonProgressBar.init "f" (some 10) false 0 0).1
      (JsonProgressBar.init "f" (some 10) false 0 0).2.1
      [(4, 1/10), (6, 3/20)]).2.2 = [] :=
  (C2_throttle_iff ⟨"f", 0, some 10, false, 0⟩ 0 0 0).2.2.2
    "f" (some 10) false 0 [(4, 1/10), (6, 3/20)]
    (by intro c hc; fin_cases hc <;> norm_num [MIN_PROGRESS_INTERVAL_S])

/-- Claim C3 counterexample: a transfer that reaches its total within the
minimum interval after construction emits nothing at completion - there
is no unconditional completion emission.  Concretely: construction at
time 0 emits `progress "f" 0 100`; the update at 100 ms that brings the
count to the total 100 emits nothing, so the last progress event of this
successful single-file run has downloaded 0, not 100. -/
theorem C3_counterexample :
    (JsonProgressBar.init "f" (some 100) false 0 0).2.2
        = [Event.progress "f" 0 100] ∧
    (runUpdates (JsonProgressBar.init "f" (some 100) false 0 0).1
        (JsonProgressBar.init "f" (some 100) false 0 0).2.1
        [(100, 1/10)]).2.2 = [] ∧
    (runUpdates (JsonProgressBar.init "f" (some 100) false 0 0).1
        (JsonProgressBar.init "f" (some 100) false 0 0).2.1
        [(100, 1/10)]).1.n = 100 ∧
    (0 : Int) ≠ 100 := by
  have h1 : JsonProgressBar.init "f" (some 100) false 0 0 =
      (⟨"f", 0, some 100, false, 0⟩, 0, [Event.progress "f" 0 100]) := by
    rw [JsonProgressBar.init_eq]
    norm_num [pyOrZero]
  have h2 : runUpdates (⟨"f", 0, some 100, false, 0⟩ : Bar) 0 [(100, 1/10)] =
      (⟨"f", 100, some 100, false, 0⟩, 0, []) := by
    simp only [runUpdates, JsonProgressBar.update_eq]
    rw [if_neg (by norm_num [MIN_PROGRESS_INTERVAL_S])]
    norm_num
  rw [h1]
  exact ⟨rfl, by rw [h2], by rw [h2], by decide⟩

/-- Claim C3 (amended): the emitter emits unconditionally at construction
(one progress event regardless of any throttle state); there is no second
unconditional emission point - every later emission, including the one at
completion of the transfer, happens exactly when at least 200 ms have
elapsed since the previous emission, so the last progress event need not
have downloaded equal to total. -/
theorem C3_construction_only_unconditional (desc : String) (total : Option Int)
    (dis : Bool) (g now : ℚ) (bar : Bar) (g' : ℚ) (k : Int) (t : ℚ) :
    (JsonProgressBar.init desc total dis g now).2.2
        = [Event.progress desc 0 (pyOrZero total)] ∧
    (JsonProgressBar.update bar g' k t).2.2 =
      (if MIN_PROGRESS_INTERVAL_S ≤ t - bar.lastEmit
        then [Event.progress bar.label (bar.n + k) (pyOrZero bar.total)]
        else []) := by
  constructor
  · rw [JsonProgressBar.init_eq]
  · rw [JsonProgressBar.update_eq]
    by_cases h : MIN_PROGRESS_INTERVAL_S ≤ t - bar.lastEmit <;> simp [h]

/-- Claim C9: the throttle timestamp is per-instance (the `lastEmit`
field of `Bar`), and the module-level timestamp written through
`record_progress_emit` is read nowhere: in any interleaved run of two
emitters, the events and final state of emitter B are exactly those of B
run alone with the same calls, independent of emitter A's state and
activity and of the module-level timestamp; a single `update` is likewise
independent of the module-level value. -/
theorem C9_no_cross_contamination (ops : List Op) (barA barB : Bar)
    (g g' gA : ℚ) (k : Int) (now : ℚ) :
    (bEvents (runSys ⟨barA, barB, g⟩ ops).2
        = (runUpdates barB g' (projB ops)).2.2) ∧
    ((runSys ⟨barA, barB, g⟩ ops).1.barB
        = (runUpdates barB g' (projB ops)).1) ∧
    ((JsonProgressBar.update barB gA k now).1
        = (JsonProgressBar.update barB g' k now).1) ∧
    ((JsonProgressBar.update barB gA k now).2.2
        = (JsonProgressBar.update barB g' k now).2.2) := by
  refine ⟨(runSys_b_indep ops barA barB g g').1,
    (runSys_b_indep ops barA barB g g').2,
    JsonProgressBar.update_bar_g_indep barB gA g' k now,
    JsonProgressBar.update_events_g_indep barB gA g' k now⟩

/-- Claim C10: every `update(n)` call with n ≥ 0 adds exactly n to the
running byte count - also in disabled mode, where vanilla tqdm suspends
its accounting - every event an `update` emits carries the new count, the
count after a call sequence is the initial count plus the sum of the
increments, and the downloaded values of the emitted events are
monotonically non-decreasing. -/
theorem C10_byte_accounting (bar : Bar) (g : ℚ) (k : Int) (now : ℚ)
    (calls : List (Int × ℚ)) (hk : 0 ≤ k) (hcalls : ∀ c ∈ calls, 0 ≤ c.1) :
    ((JsonProgressBar.update bar g k now).1.n = bar.n + k) ∧
    (bar.n ≤ (JsonProgressBar.update bar g k now).1.n) ∧
    (∀ e ∈ (JsonProgressBar.update bar g k now).2.2,
      e = Event.progress bar.label (bar.n + k) (pyOrZero bar.total)) ∧
    ((runUpdates bar g calls).1.n = bar.n + (calls.map Prod.fst).sum) ∧
    List.Sorted (· ≤ ·) (evDownloads (runUpdates bar g calls).2.2) := by
  refine ⟨?_, ?_, ?_, runUpdates_n calls bar g,
    (runUpdates_downloads_sorted calls bar g hcalls).1⟩
  · rw [JsonProgressBar.update_eq]
    by_cases h : MIN_PROGRESS_INTERVAL_S ≤ now - bar.lastEmit <;> simp [h]
  · rw [JsonProgressBar.update_eq]
    by_cases h : MIN_PROGRESS_INTERVAL_S ≤ now - bar.lastEmit <;> simp [h] <;> omega
  · rw [JsonProgressBar.update_eq]
    by_cases h : MIN_PROGRESS_INTERVAL_S ≤ now - bar.lastEmit <;> simp [h]

/-- Witness for C10, on a disabled bar: an update of 3 at time 1 starting
from count 0, and the sequence of updates 2 then 3. -/
theorem C10_witness :
    ((JsonProgressBar.update ⟨"f", 0, some 10, true, 0⟩ 0 3 1).1.n = 0 + 3) ∧
    ((0 : Int) ≤ (JsonProgressBar.update ⟨"f", 0, some 10, true, 0⟩ 0 3 1).1.n) ∧
    (∀ e ∈ (JsonProgressBar.update ⟨"f", 0, some 10, true, 0⟩ 0 3 1).2.2,
      e = Event.progress "f" (0 + 3) (pyOrZero (some 10))) ∧
    ((runUpdates ⟨"f", 0, some 10, true, 0⟩ 0 [(2, 0), (3, 1)]).1.n
      = 0 + ([(2, (0:ℚ)), (3, 1)].map Prod.fst).sum) ∧
    List.Sorted (· ≤ ·)
      (evDownloads (runUpdates ⟨"f", 0, some 10, true, 0⟩ 0 [(2, 0), (3, 1)]).2.2) :=
  C10_byte_accounting ⟨"f", 0, some 10, true, 0⟩ 0 3 1 [(2, 0), (3, 1)]
    (by decide) (by decide)

/-- Claim C6: parsing produces FileSpecs in input order, each non-blank
entry processed independently (blanks dropped); the concrete equalities
pin the delimiter rules: `"::"` is checked before `"="`, the split is at
the last occurrence of the matching delimiter, a size text that does not
parse as an integer leaves the size unset without failing the parse, the
path is stripped of leading slashes and spaces, and an entry with no
delimiter is the whole trimmed string with no size hint. -/
theorem C6_parsing (raws : List String) (specs : List FileSpec)
    (h : parse_file_specs raws = Except.ok specs) :
    specs = raws.filterMap parseEntry ∧
    parse_file_specs ["a/b.txt::1024"] = Except.ok [⟨"a/b.txt", some 1024⟩] ∧
    parse_file_specs ["  /a.txt "] = Except.ok [⟨"a.txt", none⟩] ∧
    parse_file_specs ["a=b::c"] = Except.ok [⟨"a=b", none⟩] ∧
    parse_file_specs ["x::y::9"] = Except.ok [⟨"x::y", some 9⟩] ∧
    parse_file_specs ["k=7"] = Except.ok [⟨"k", some 7⟩] ∧
    parse_file_specs ["plain.txt"] = Except.ok [⟨"plain.txt", none⟩] :=
  ⟨parse_file_specs_ok_filterMap h, by decide, by decide, by decide,
    by decide, by decide, by decide⟩

/-- Witness for C6 at the one-entry input `["a.txt"]`. -/
theorem C6_witness :
    [(⟨"a.txt", none⟩ : FileSpec)] = ["a.txt"].filterMap parseEntry :=
  (C6_parsing ["a.txt"] [⟨"a.txt", none⟩] (by decide)).1

/-- Claim C7: with the probe flag set and all imports resolved, the
process emits exactly the one readiness event - carrying the resolved
huggingface_hub and hf_xet version strings - and exits 0; the result is
independent of the raw file-spec list and of the transfer oracle, so no
parse, transfer or filesystem write takes part. -/
theorem C7_probe_mode (env : Env) (hdeps : depsOk env)
    (hp : env.cfg.probe = true) (rf : List String) (oc : Oracle) :
    script env = (0, [Event.probeReport env.hubVersion
      (env.hfXetVersionMeta.getD "unknown")]) ∧
    script { env with rawFiles := rf, oracle := oc } = script env := by
  have h1 := script_probe env hdeps hp
  have hdeps2 : depsOk { env with rawFiles := rf, oracle := oc } := hdeps
  have h2 := script_probe { env with rawFiles := rf, oracle := oc } hdeps2 hp
  exact ⟨h1, by rw [h1, h2]⟩

/-- Witness for C7 at the concrete probe environment. -/
theorem C7_witness :
    script envProbe = (0, [Event.probeReport "0.30.0" "1.2.3"]) ∧
    script { envProbe with rawFiles := [], oracle := oracleFailSecond }
      = script envProbe :=
  C7_probe_mode envProbe ⟨rfl, rfl, rfl⟩ rfl [] oracleFailSecond

/-- Claim C8 counterexample: the size hint is never handed to the
transfer operation or the emitter.  With the same path, the hints 1024
and 7 produce identical keyword arguments for `hf_hub_download` and
identical whole sessions, so the emitter cannot be constructed with the
hint as its initial total; and at construction with an unknown total the
emitted total is the fallback 0, not any hint. -/
theorem C8_counterexample :
    mkHfArgs cfg0 ⟨"f.bin", some 1024⟩ = mkHfArgs cfg0 ⟨"f.bin", some 7⟩ ∧
    parse_file_specs envHintA.rawFiles = Except.ok [⟨"f.bin", some 1024⟩] ∧
    parse_file_specs envHintB.rawFiles = Except.ok [⟨"f.bin", some 7⟩] ∧
    script envHintA = script envHintB ∧
    (JsonProgressBar.init "f.bin" none false 0 0).2.2
      = [Event.progress "f.bin" 0 0] ∧
    (1024 : Int) ≠ 7 := by
  refine ⟨by decide, by decide, by decide, by decide, ?_, by decide⟩
  rw [JsonProgressBar.init_eq]
  rfl

/-- Claim C8 (amended): the parsed size hint does not reach the transfer
call - the keyword arguments are a function of the session configuration
and the spec path only - and the emitted total is `int(self.total or 0)`:
the bar total when known and nonzero, with the fallback 0 when it is
unknown, never failing. -/
theorem C8_size_hint_unused (cfg : Config) (s s' : FileSpec)
    (hps : s.path = s'.path) (bar : Bar) (g now : ℚ) :
    mkHfArgs cfg s = mkHfArgs cfg s' ∧
    (JsonProgressBar._emit bar g true now).2.2
      = [Event.progress bar.label bar.n (pyOrZero bar.total)] ∧
    (bar.total = none → pyOrZero bar.total = 0) ∧
    (∀ v, bar.total = some v → v ≠ 0 → pyOrZero bar.total = v) := by
  refine ⟨?_, ?_, ?_, ?_⟩
  · simp [mkHfArgs, hps]
  · simp [JsonProgressBar._emit, record_progress_emit]
  · intro h; rw [h]; rfl
  · intro v hv hnz; rw [hv]; simp [pyOrZero, hnz]

/-- Witness for C8 (amended): specs with hint 1024 and with no hint, same
path, give the same call arguments; a bar with unknown total emits 0. -/
theorem C8_witness :
    mkHfArgs cfg0 ⟨"f", some 1024⟩ = mkHfArgs cfg0 ⟨"f", none⟩ ∧
    (JsonProgressBar._emit ⟨"f", 0, none, false, 0⟩ 0 true 0).2.2
      = [Event.progress "f" 0 (pyOrZero none)] :=
  ⟨(C8_size_hint_unused cfg0 ⟨"f", some 1024⟩ ⟨"f", none⟩ rfl
      ⟨"f", 0, none, false, 0⟩ 0 0).1,
    (C8_size_hint_unused cfg0 ⟨"f", some 1024⟩ ⟨"f", none⟩ rfl
      ⟨"f", 0, none, false, 0⟩ 0 0).2.1⟩

/-- Claim C5: when every transfer of the plan succeeds, the files are
processed sequentially in the exact order the specs were supplied - the
stream is the per-file progress events in plan order - exactly one
`complete` event is emitted, it is the last event of the stream, and the
process exits 0. -/
theorem C5_success_session (env : Env) (specs : List FileSpec)
    (hdeps : depsOk env) (hp : env.cfg.probe = false)
    (hparse : parse_file_specs env.rawFiles = Except.ok specs)
    (hok : ∀ j a, (env.oracle j a).2 = none) :
    script env = (0, orderedProgress env.oracle env.cfg specs 0
      ++ [Event.complete]) ∧
    (script env).2.countP isCompleteEv = 1 ∧
    (script env).2.getLast? = some Event.complete := by
  have hrun : script env = runFiles env.oracle env.cfg specs 0 := by
    rw [script_run env hdeps hp, hparse]
  have hmain : script env = (0, orderedProgress env.oracle env.cfg specs 0
      ++ [Event.complete]) := by
    rw [hrun, runFiles_allOk hok specs 0]
  refine ⟨hmain, ?_, ?_⟩
  · rw [hmain]
    have h0 : (orderedProgress env.oracle env.cfg specs 0).countP isCompleteEv = 0 := by
      rw [List.countP_eq_zero]
      intro e he
      rcases orderedProgress_mem specs 0 e he with ⟨f, d, t, rfl⟩
      simp [isCompleteEv]
    simp only [List.countP_append, h0]
    rfl
  · rw [hmain]
    simp [List.getLast?_concat]

/-- Witness for C5 at the concrete two-file environment whose transfers
all succeed. -/
theorem C5_witness :
    script envOk = (0, orderedProgress envOk.oracle envOk.cfg
      [⟨"a.txt", none⟩, ⟨"b/c.bin", some 42⟩] 0 ++ [Event.complete]) ∧
    (script envOk).2.countP isCompleteEv = 1 ∧
    (script envOk).2.getLast? = some Event.complete :=
  C5_success_session envOk [⟨"a.txt", none⟩, ⟨"b/c.bin", some 42⟩]
    ⟨rfl, rfl, rfl⟩ rfl (by decide) (fun j a => rfl)

/-- Claim C4: when the calls before position k succeed and the transfer
of the k-th file fails with some message, the helper emits exactly one
`error` event - naming that file and the underlying message - right after
the progress emitted so far, attempts no file after position k (the
session is unchanged under any oracle that agrees up to k), emits no
`complete` event, and exits 65. -/
theorem C4_first_failure (env : Env) (specs : List FileSpec) (k : Nat)
    (msg : String) (o' : Oracle) (hk : k < specs.length)
    (hdeps : depsOk env) (hp : env.cfg.probe = false)
    (hparse : parse_file_specs env.rawFiles = Except.ok specs)
    (hpre : ∀ j a, j < k → (env.oracle j a).2 = none)
    (hfail : (env.oracle k (mkHfArgs env.cfg (specs.get ⟨k, hk⟩))).2 = some msg)
    (ho' : ∀ j, j ≤ k → o' j = env.oracle j) :
    script env = (65,
      orderedProgress env.oracle env.cfg (specs.take k) 0 ++
        (env.oracle k (mkHfArgs env.cfg (specs.get ⟨k, hk⟩))).1.map progEv ++
        [Event.error ("Failed to download " ++ (specs.get ⟨k, hk⟩).display_name
          ++ ": " ++ msg)]) ∧
    (script env).2.countP isErrorEv = 1 ∧
    Event.complete ∉ (script env).2 ∧
    script { env with oracle := o' } = script env := by
  have hrun : script env = runFiles env.oracle env.cfg specs 0 := by
    rw [script_run env hdeps hp, hparse]
  have hpre0 : ∀ j a, j < 0 + k → (env.oracle j a).2 = none := by
    intro j a hj
    exact hpre j a (by omega)
  have hfail0 : (env.oracle (0 + k) (mkHfArgs env.cfg (specs.get ⟨k, hk⟩))).2
      = some msg := by
    simpa using hfail
  have heq := runFiles_firstFail specs 0 k hk hpre0 hfail0
  have hmain : script env = (65,
      orderedProgress env.oracle env.cfg (specs.take k) 0 ++
        (env.oracle k (mkHfArgs env.cfg (specs.get ⟨k, hk⟩))).1.map progEv ++
        [Event.error ("Failed to download " ++ (specs.get ⟨k, hk⟩).display_name
          ++ ": " ++ msg)]) := by
    rw [hrun, heq]
    simp [Nat.zero_add]
  refine ⟨hmain, ?_, ?_, ?_⟩
  · rw [hmain]
    have h1 : (orderedProgress env.oracle env.cfg (specs.take k) 0).countP
        isErrorEv = 0 := by
      rw [List.countP_eq_zero]
      intro e he
      rcases orderedProgress_mem (specs.take k) 0 e he with ⟨f, d, t, rfl⟩
      simp [isErrorEv]
    have h2 : ((env.oracle k (mkHfArgs env.cfg (specs.get ⟨k, hk⟩))).1.map
        progEv).countP isErrorEv = 0 := by
      rw [List.countP_eq_zero]
      intro e he
      rcases List.mem_map.mp he with ⟨p, _, rfl⟩
      simp [isErrorEv, progEv]
    simp only [List.countP_append, h1, h2]
    rfl
  · rw [hmain]
    intro hmem
    simp only [List.mem_append, List.mem_singleton] at hmem
    rcases hmem with (h1 | h2) | h3
    · rcases orderedProgress_mem (specs.take k) 0 Event.complete h1 with ⟨f, d, t, hE⟩
      exact Event.noConfusion hE
    · rcases List.mem_map.mp h2 with ⟨p, _, hp2⟩
      exact Event.noConfusion hp2
    · exact Event.noConfusion h3
  · have hdeps2 : depsOk { env with oracle := o' } := hdeps
    have hraw : ({ env with oracle := o' } : Env).rawFiles = env.rawFiles := rfl
    have hcfg : ({ env with oracle := o' } : Env).cfg = env.cfg := rfl
    have hrun2 : script { env with oracle := o' } = runFiles o' env.cfg specs 0 := by
      rw [script_run { env with oracle := o' } hdeps2 hp, hraw, hparse]
    have hpre0b : ∀ j a, j < 0 + k → (o' j a).2 = none := by
      intro j a hj
      rw [ho' j (by omega)]
      exact hpre j a (by omega)
    have hfail0b : (o' (0 + k) (mkHfArgs env.cfg (specs.get ⟨k, hk⟩))).2
        = some msg := by
      rw [Nat.zero_add, ho' k (le_refl k)]
      exact hfail
    have heqb := runFiles_firstFail specs 0 k hk hpre0b hfail0b
    have hop : orderedProgress o' env.cfg (specs.take k) 0
        = orderedProgress env.oracle env.cfg (specs.take k) 0 := by
      apply orderedProgress_congr
      intro j hj1 hj2
      apply ho'
      have hle : (specs.take k).length ≤ k := by
        simp [List.length_take]
      omega
    rw [hrun2, heqb, hrun, heq]
    simp only [Nat.zero_add]
    rw [hop, ho' k (le_refl k)]

/-- Witness for C4: in the two-file environment whose second transfer
raises "boom", the session emits the first file's progress then one error
naming the second file, and no `complete`. -/
theorem C4_witness :
    script envFailSecond = (65, [Event.progress "a.txt" 1 2,
      Event.error "Failed to download b/c.bin: boom"]) ∧
    Event.complete ∉ (script envFailSecond).2 :=
  have h := C4_first_failure envFailSecond [⟨"a.txt", none⟩, ⟨"b/c.bin", some 42⟩]
    1 "boom" oracleFailSecond (by decide) ⟨rfl, rfl, rfl⟩ rfl (by decide)
    (fun j a hj => by
      have hj0 : j = 0 := by omega
      subst hj0
      rfl)
    (by decide)
    (fun j hj => rfl)
  ⟨h.1.trans (by decide), h.2.2.1⟩

/-- Claim C1: the exit code classifies the outcome: 0 when every transfer
succeeds; 64 with exactly one `error` event and no transfer output when
the file-spec list is invalid - which happens exactly when the list is
empty after filtering blanks or some entry normalizes to an empty path;
65 with an `error` event when some transfer fails; 90 with an
`unavailable` event when `hf_xet` cannot be imported; 97 when
`huggingface_hub` and 98 when `tqdm` cannot be imported, both checked at
process start with a stderr diagnostic only, before any protocol event;
and every failure other than 97/98 puts an `error` or `unavailable` event
on the stream before exit. -/
theorem C1_exit_code_classification (env : Env) :
    (env.hfHubOk = false → script env = (97, [])) ∧
    (env.hfHubOk = true → env.tqdmOk = false → script env = (98, [])) ∧
    (∀ exc, env.hfHubOk = true → env.tqdmOk = true →
      env.hfXetImport = Except.error exc →
      script env = (90, [Event.unavailable ("hf_xet not available: " ++ exc)])) ∧
    ((parse_file_specs env.rawFiles).isOk = false ↔
      (∃ r ∈ env.rawFiles, badEntry r) ∨ ∀ r ∈ env.rawFiles, pyStrip r = "") ∧
    (∀ msg, depsOk env → env.cfg.probe = false →
      parse_file_specs env.rawFiles = Except.error msg →
      script env = (64, [Event.error msg])) ∧
    (∀ specs, depsOk env → env.cfg.probe = false →
      parse_file_specs env.rawFiles = Except.ok specs →
      (∀ j a, (env.oracle j a).2 = none) → (script env).1 = 0) ∧
    (∀ specs k msg (hk : k < specs.length), depsOk env → env.cfg.probe = false →
      parse_file_specs env.rawFiles = Except.ok specs →
      (∀ j a, j < k → (env.oracle j a).2 = none) →
      (env.oracle k (mkHfArgs env.cfg (specs.get ⟨k, hk⟩))).2 = some msg →
      (script env).1 = 65 ∧ ∃ m, Event.error m ∈ (script env).2) ∧
    ((script env).1 ≠ 0 → (script env).1 ≠ 97 → (script env).1 ≠ 98 →
      ∃ e ∈ (script env).2,
        (∃ m, e = Event.error m) ∨ ∃ r, e = Event.unavailable r) := by
  refine ⟨?_, ?_, ?_, parse_file_specs_isOk_false_iff env.rawFiles, ?_, ?_, ?_, ?_⟩
  · intro h
    simp [script, h]
  · intro h1 h2
    simp [script, h1, h2]
  · intro exc h1 h2 h3
    simp [script, h1, h2, mainFn, require_hf_xet, h3]
  · intro msg hdeps hp hparse
    rw [script_run env hdeps hp, hparse]
  · intro specs hdeps hp hparse hok
    have hrun : script env = runFiles env.oracle env.cfg specs 0 := by
      rw [script_run env hdeps hp, hparse]
    rw [hrun, runFiles_allOk hok specs 0]
  · intro specs k msg hk hdeps hp hparse hpre hfail
    have hrun : script env = runFiles env.oracle env.cfg specs 0 := by
      rw [script_run env hdeps hp, hparse]
    have heq := runFiles_firstFail specs 0 k hk
      (by intro j a hj; exact hpre j a (by omega)) (by simpa using hfail)
    rw [hrun, heq]
    refine ⟨rfl, "Failed to download " ++ (specs.get ⟨k, hk⟩).display_name
      ++ ": " ++ msg, ?_⟩
    simp
  · intro h0 h97 h98
    cases hhub : env.hfHubOk with
    | false => exact absurd (by simp [script, hhub]) h97
    | true =>
      cases htq : env.tqdmOk with
      | false => exact absurd (by simp [script, hhub, htq]) h98
      | true =>
        cases hxet : env.hfXetImport with
        | error exc =>
          refine ⟨Event.unavailable ("hf_xet not available: " ++ exc), ?_,
            Or.inr ⟨_, rfl⟩⟩
          simp [script, hhub, htq, mainFn, require_hf_xet, hxet]
        | ok u =>
          cases u
          have hdeps : depsOk env := ⟨hhub, htq, hxet⟩
          cases hp : env.cfg.probe with
          | true =>
            rw [script_probe env hdeps hp] at h0
            exact absurd rfl h0
          | false =>
            have hrun := script_run env hdeps hp
            rcases hparse : parse_file_specs env.rawFiles with msg | specs
            · rw [hrun, hparse]
              exact ⟨Event.error msg, by simp, Or.inl ⟨msg, rfl⟩⟩
            · rw [hrun, hparse] at h0 ⊢
              rcases runFiles_code_cases env.oracle env.cfg specs 0 with hc | ⟨_, m, hm⟩
              · exact absurd hc h0
              · exact ⟨Event.error m, hm, Or.inl ⟨m, rfl⟩⟩

/-- Witness for C1 at the 64 branch: the invalid spec list `["/"]` gives
one error event and exit code 64. -/
theorem C1_witness :
    script envBadSpec = (64,
      [Event.error "Invalid file specification: \x27/\x27"]) :=
  (C1_exit_code_classification envBadSpec).2.2.2.2.1
    "Invalid file specification: \x27/\x27" ⟨rfl, rfl, rfl⟩ rfl (by decide)
